import Mathlib

/-!
Verification development for the BskyMusic bot (src/app/app.py): a shallow
embedding of its deduplication ledger, image normalizer, hashtag/facet
builder and check cycle, together with theorems about them.
-/

namespace BskyMusic

/-- Maximum image byte size, from CONFIG in src/app/app.py (950 KiB). -/
def MAX_IMAGE_SIZE : Nat := 950 * 1024

/-- Maximum image pixel dimension, from CONFIG in src/app/app.py. -/
def MAX_IMAGE_DIMENSION : Nat := 2000

/-- UTF-8 encoding of a single character as its list of byte values. -/
def utf8Char (c : Char) : List Nat :=
  let n := c.toNat
  if n < 128 then [n]
  else if n < 2048 then [192 + n / 64, 128 + n % 64]
  else if n < 65536 then [224 + n / 4096, 128 + n / 64 % 64, 128 + n % 64]
  else [240 + n / 262144, 128 + n / 4096 % 64, 128 + n / 64 % 64, 128 + n % 64]

/-- UTF-8 byte encoding of a string. -/
def utf8Bytes (s : String) : List Nat :=
  (s.data.map utf8Char).flatten

/-- A Bluesky rich-text facet as built by create_hashtag_facets: a range of
positions in the final text plus the tag value (the hashtag without its
leading hash character). -/
structure Facet where
  byteStart : Nat
  byteEnd : Nat
  tag : String
  deriving DecidableEq

/-- Facet-building loop of create_hashtag_facets (src/app/app.py lines
305-327): walks the hashtag list, assigning each hashtag the range starting
at pos of width len(hashtag), then advancing pos by len(hashtag) + 1 for the
separating space. Python len counts code points, hence String.length here. -/
def facetsAux : List String → Nat → List Facet
  | [], _ => []
  | h :: rest, pos =>
    { byteStart := pos, byteEnd := pos + h.length, tag := String.mk (h.data.drop 1) } ::
      facetsAux rest (pos + h.length + 1)

/-- Embedding of create_hashtag_facets (src/app/app.py lines 291-329).
The full text is the caption, two newlines, then the hashtags joined by
single spaces; hashtag_start is len(text) + 2 where Python len counts code
points, not UTF-8 bytes. -/
def create_hashtag_facets (text : String) (hashtags : List String) : String × List Facet :=
  let hashtag_text := String.intercalate (" ") hashtags
  let full_text := text ++ "\n\n" ++ hashtag_text
  let hashtag_start := text.length + 2
  (full_text, facetsAux hashtags hashtag_start)

/-- C1: the claim fails on the code. At the spec's own test input, caption
"A – B" (the dash is U+2013, three UTF-8 bytes) with hashtags
["#NowPlaying", "#Foo"], create_hashtag_facets computes byte_start from the
code-point length of the caption (5 + 2 = 7), but the first hashtag begins
at UTF-8 byte offset 9 of full_text; slicing the UTF-8 bytes of full_text at
the produced range [7, 18) does not reproduce "#NowPlaying". -/
theorem c1_facets_use_code_point_offsets :
    (create_hashtag_facets ("A – B") ["#NowPlaying", "#Foo"]).2.map Facet.byteStart = [7, 19] ∧
    ∃ f ∈ (create_hashtag_facets ("A – B") ["#NowPlaying", "#Foo"]).2,
      ((utf8Bytes (create_hashtag_facets ("A – B") ["#NowPlaying", "#Foo"]).1).drop
          f.byteStart).take (f.byteEnd - f.byteStart) ≠ utf8Bytes ("#" ++ f.tag) := by
  decide

/-- Embedding of Python str.replace of a space by the empty string, as used
for artist and genre hashtags in check_now_playing (src/app/app.py lines
410 and 415): removes every space character U+0020 and nothing else. -/
def pyRemoveSpaces (s : String) : String :=
  String.mk (s.data.filter (fun c => c ≠ ' '))

/-- Modelled from the spec: removal of whitespace, as in the spec's words
"artist with internal whitespace removed" / "genre with whitespace removed".
Removes every whitespace character, to be compared with pyRemoveSpaces. -/
def stripWhitespaceSpec (s : String) : String :=
  String.mk (s.data.filter (fun c => ¬ c.isWhitespace))

/-- Hashtag assembly of check_now_playing (src/app/app.py lines 406-416):
start from the singleton list #NowPlaying, append the artist tag, then append
one genre tag per genre in a loop. -/
def build_hashtags (artist : String) (genres : List String) : List String :=
  let hashtags := ["#NowPlaying"]
  let hashtags := hashtags ++ ["#" ++ pyRemoveSpaces artist]
  genres.foldl (fun acc genre => acc ++ ["#" ++ pyRemoveSpaces genre]) hashtags

/-- Embedding of generate_progress_bar (src/app/app.py lines 280-284): a
static bar of 7 filled and 3 empty glyph cells. -/
def generate_progress_bar : String :=
  String.mk (List.replicate 7 '▰' ++ List.replicate 3 '▱')

/-- A row of the posts table (src/app/app.py init_db). Artist and title come
from Python values that may be None, hence Option; SQLite stores NULL then. -/
structure PostRecord where
  artist : Option String
  title : Option String
  post_date : String
  deriving DecidableEq

/-- SQL equality used in the WHERE clause of already_posted_today: a
comparison involving NULL never matches (NULL = x is not true in SQLite). -/
def sqlEq : Option String → Option String → Bool
  | some a, some b => a == b
  | _, _ => false

/-- Embedding of already_posted_today (src/app/app.py lines 92-106): true
iff some row of the posts table matches artist, title and today's date
exactly (SQL string equality, no normalization). -/
def already_posted_today (db : List PostRecord) (artist title : Option String)
    (today : String) : Bool :=
  db.any (fun r => sqlEq r.artist artist && sqlEq r.title title && r.post_date == today)

/-- Embedding of save_post (src/app/app.py lines 109-121): unconditionally
inserts a new row with today's date; no dedup check of its own. -/
def save_post (db : List PostRecord) (artist title : Option String)
    (today : String) : List PostRecord :=
  db ++ [{ artist := artist, title := title, post_date := today }]

/-- The now-playing record returned by get_now_playing (src/app/app.py lines
158-163); each field is a .get on the track metadata and may be None. -/
structure Track where
  artist : Option String
  title : Option String
  release_mbid : Option String

/-- Python str formatting of an optional string inside an f-string: None
formats as the four letters "None". -/
def pyStr : Option String → String
  | none => "None"
  | some s => s

/-- Environment of one check cycle: what the remote services and the publish
call would return during this cycle. track models get_now_playing's result,
genres that of get_genres, art that of get_album_art, resize the behaviour
of resize_image on those bytes, publishOk whether client.send_post succeeds,
and today the current UTC date string. -/
structure Env where
  track : Option Track
  genres : List String
  art : Option (List Nat)
  resize : List Nat → Option (List Nat)
  publishOk : Bool
  today : String

/-- Python truthiness filter for byte buffers: None and the empty buffer are
falsy (the `if image_bytes:` and `if not resized:` tests in post_to_bluesky). -/
def truthyBytes : Option (List Nat) → Option (List Nat)
  | none => none
  | some [] => none
  | some (b :: bs) => some (b :: bs)

/-- Outcome of one check cycle. -/
inductive CycleOutcome where
  | noTrack
  | alreadyPosted
  | crashed
  | publishFailed
  | posted (text : String) (facets : List Facet) (hashtags : List String)
      (image : Option (List Nat))
  deriving DecidableEq

/-- Result of one check cycle: the posts table after the cycle, how many
publish (send_post) calls occurred, whether safe_login was re-attempted, and
the outcome. -/
structure CycleResult where
  db : List PostRecord
  publishCalls : Nat
  reloggedIn : Bool
  outcome : CycleOutcome
  deriving DecidableEq

/-- Embedding of check_now_playing together with post_to_bluesky
(src/app/app.py lines 336-431). If no track is playing the cycle stops. The
dedup check runs next (with SQL NULL semantics on missing fields). A None
artist then raises AttributeError at artist.replace, crashing the cycle
before any publish. Otherwise the hashtags and post text are assembled (a
None title formats as "None"), the image is resized if present and truthy,
exactly one send_post call is made, and only on success is the row saved;
on failure safe_login is re-attempted and nothing is recorded. -/
def check_now_playing (env : Env) (db : List PostRecord) : CycleResult :=
  match env.track with
  | none => { db := db, publishCalls := 0, reloggedIn := false, outcome := .noTrack }
  | some track =>
    if already_posted_today db track.artist track.title env.today then
      { db := db, publishCalls := 0, reloggedIn := false, outcome := .alreadyPosted }
    else
      match track.artist with
      | none => { db := db, publishCalls := 0, reloggedIn := false, outcome := .crashed }
      | some artist =>
        let hashtags := build_hashtags artist env.genres
        let post_text := "🎧 KeeCloud Music\n\n🎵 " ++ artist ++ " – " ++ pyStr track.title
          ++ "\n\n" ++ generate_progress_bar
        let imageEmbed :=
          match truthyBytes env.art with
          | none => none
          | some b => truthyBytes (env.resize b)
        let ft := create_hashtag_facets post_text hashtags
        if env.publishOk then
          { db := save_post db track.artist track.title env.today
            publishCalls := 1
            reloggedIn := false
            outcome := .posted ft.1 ft.2 hashtags imageEmbed }
        else
          { db := db, publishCalls := 1, reloggedIn := true, outcome := .publishFailed }

/-- Round a rational to the nearest integer, ties to even — the rounding
IEEE-754 applies to the 53-bit significand of every double operation. -/
def roundHalfEven (x : ℚ) : ℤ :=
  if x - ⌊x⌋ < 1 / 2 then ⌊x⌋
  else if 1 / 2 < x - ⌊x⌋ then ⌊x⌋ + 1
  else if ⌊x⌋ % 2 = 0 then ⌊x⌋ else ⌊x⌋ + 1

/-- Relative precision of IEEE-754 binary64: half an ulp of the significand. -/
def eps53 : ℚ := 1 / 2 ^ 53

/-- Fuelled binary logarithm on naturals, structurally recursive so that
concrete instances evaluate: with fuel at least n, log2fuel fuel n is the
floor of the base-two logarithm of n, for n at least 1. -/
def log2fuel : Nat → Nat → Nat
  | 0, _ => 0
  | fuel + 1, n => if 2 ≤ n then log2fuel fuel (n / 2) + 1 else 0

/-- Floor of the base-two logarithm of a natural number. -/
def natLog2 (n : Nat) : Nat := log2fuel n n

/-- Floor of the base-two logarithm of a positive rational: the unique e
with 2 ^ e ≤ q < 2 ^ (e + 1) (proved in qlog2_spec). -/
def qlog2 (q : ℚ) : ℤ :=
  if 1 ≤ q then (natLog2 ⌊q⌋₊ : ℤ)
  else
    if q⁻¹ ≤ (2 : ℚ) ^ natLog2 ⌊q⁻¹⌋₊ then -(natLog2 ⌊q⁻¹⌋₊ : ℤ)
    else -(natLog2 ⌊q⁻¹⌋₊ : ℤ) - 1

/-- Exact value of rounding a rational to IEEE-754 binary64 (round to
nearest, ties to even): scale into the 53-bit significand range, round half
to even, scale back. This is the exact result of each double operation for
magnitudes strictly between the subnormal and overflow thresholds — which
covers every intermediate of the resize arithmetic for dimensions up to
2 ^ 32. -/
def fl64 (q : ℚ) : ℚ :=
  if q = 0 then 0
  else (roundHalfEven (q / 2 ^ (qlog2 |q| - 52)) : ℚ) * 2 ^ (qlog2 |q| - 52)

/-- Dimension step of resize_image (src/app/app.py lines 207-219) with
Python's IEEE-754 double arithmetic modelled exactly by fl64: if either
dimension exceeds MAX_IMAGE_DIMENSION, ratio is the smaller of the two
correctly rounded double divisions MAX/width and MAX/height (CPython integer
division produces the correctly rounded double of the exact quotient); each
new dimension converts its integer to a double (one rounding), multiplies by
ratio (one rounding), and truncates with int(). Otherwise the size is
returned unchanged. -/
def resize_dims (w h : Nat) : Nat × Nat :=
  if MAX_IMAGE_DIMENSION < w ∨ MAX_IMAGE_DIMENSION < h then
    let ratio : ℚ :=
      min (fl64 ((MAX_IMAGE_DIMENSION : ℚ) / (w : ℚ)))
          (fl64 ((MAX_IMAGE_DIMENSION : ℚ) / (h : ℚ)))
    (⌊fl64 (fl64 (w : ℚ) * ratio)⌋.toNat, ⌊fl64 (fl64 (h : ℚ) * ratio)⌋.toNat)
  else (w, h)

/-- Quality loop of resize_image (src/app/app.py lines 222-241), abstracted
over the encoded size at each quality. One recursive level per encode: stop
with the current quality as soon as the size is under MAX_IMAGE_SIZE or the
quality has fallen to 10 or below; otherwise drop the quality by 10 and
re-encode. Returns the final quality and the number of encodes performed. -/
def encodeLoop (sz : Nat → Nat) (quality : Nat) : Nat × Nat :=
  if sz quality < MAX_IMAGE_SIZE ∨ quality ≤ 10 then (quality, 1)
  else
    let r := encodeLoop sz (quality - 10)
    (r.1, r.2 + 1)
termination_by quality
decreasing_by omega

/-- Abstract decoded image: its pixel dimensions and whether its mode has an
alpha channel or palette (RGBA, LA or P); pixel content is abstracted away. -/
structure Img where
  width : Nat
  height : Nat
  hasAlpha : Bool
  deriving DecidableEq

/-- Embedding of resize_image (src/app/app.py lines 190-245), abstracted
over the decoder and the JPEG encoder (image bytes and pixel data are
opaque). An image with alpha or palette is composited onto a white RGB
background of the same size; dimensions are bounded by resize_dims; then the
quality loop starts at 95 and the buffer of its final encode is returned.
There is no branch that returns the input bytes unchanged. -/
def resize_image (decode : List Nat → Option Img) (encode : Img → Nat → List Nat)
    (image_bytes : List Nat) : Option (List Nat) :=
  match decode image_bytes with
  | none => none
  | some img0 =>
    let img1 := if img0.hasAlpha then { img0 with hasAlpha := false } else img0
    let wh := resize_dims img1.width img1.height
    let img2 : Img := { width := wh.1, height := wh.2, hasAlpha := img1.hasAlpha }
    let q := (encodeLoop (fun qq => (encode img2 qq).length) 95).1
    some (encode img2 q)

/-! Helper lemmas -/

/-- SQL equality against a non-NULL parameter holds exactly on that value. -/
theorem sqlEq_some_iff (o : Option String) (b : String) :
    sqlEq o (some b) = true ↔ o = some b := by
  cases o <;> simp [sqlEq]

/-- Folding append of singletons over a list is the same as mapping. -/
theorem foldl_append_eq_map {α β : Type} (f : α → β) :
    ∀ (l : List α) (acc : List β),
      l.foldl (fun a x => a ++ [f x]) acc = acc ++ l.map f := by
  intro l
  induction l with
  | nil => intro acc; simp
  | cons x xs ih => intro acc; simp [ih]

/-- Bound on the quality loop: started at 10*k + 5, it performs at most
k + 1 encodes and the final quality is either under the byte budget or
exactly 5 (the first quality at or below the check threshold of 10 that is
reachable from such a start). -/
theorem encodeLoop_bound (sz : Nat → Nat) (k : Nat) : ∀ q, q = 10 * k + 5 →
    (encodeLoop sz q).2 ≤ k + 1 ∧
    (sz (encodeLoop sz q).1 < MAX_IMAGE_SIZE ∨ (encodeLoop sz q).1 = 5) := by
  induction k with
  | zero =>
    intro q hq
    subst hq
    rw [encodeLoop, if_pos (Or.inr (by norm_num))]
    exact ⟨le_refl 1, Or.inr rfl⟩
  | succ k ih =>
    intro q hq
    subst hq
    rw [encodeLoop]
    by_cases hc : sz (10 * (k + 1) + 5) < MAX_IMAGE_SIZE ∨ 10 * (k + 1) + 5 ≤ 10
    · rw [if_pos hc]
      refine ⟨by omega, Or.inl ?_⟩
      rcases hc with hc | hc
      · exact hc
      · omega
    · rw [if_neg hc]
      have h10 : 10 * (k + 1) + 5 - 10 = 10 * k + 5 := by omega
      rw [h10]
      dsimp only
      have hih := ih (10 * k + 5) rfl
      exact ⟨by omega, hih.2⟩

/-- One unfolding of the quality loop for a size function that is never
under budget. -/
theorem encodeLoop_const_step (q : Nat) (h : 10 < q) :
    encodeLoop (fun _ => MAX_IMAGE_SIZE) q =
      ((encodeLoop (fun _ => MAX_IMAGE_SIZE) (q - 10)).1,
       (encodeLoop (fun _ => MAX_IMAGE_SIZE) (q - 10)).2 + 1) := by
  rw [encodeLoop, if_neg (by simp; omega)]

/-- Exact run of the quality loop when nothing is ever under budget: from
quality 10*k + 5 it performs k + 1 encodes and ends at quality 5. -/
theorem encodeLoop_const (k : Nat) :
    encodeLoop (fun _ => MAX_IMAGE_SIZE) (10 * k + 5) = (5, k + 1) := by
  induction k with
  | zero => rw [encodeLoop, if_pos (Or.inr (by norm_num))]
  | succ k ih =>
    rw [encodeLoop_const_step (10 * (k + 1) + 5) (by omega)]
    have h10 : 10 * (k + 1) + 5 - 10 = 10 * k + 5 := by omega
    rw [h10, ih]

/-- The quality loop never ends above its starting quality. -/
theorem encodeLoop_fst_le (sz : Nat → Nat) (q : Nat) : (encodeLoop sz q).1 ≤ q := by
  induction q using Nat.strong_induction_on with
  | _ q ih =>
    rw [encodeLoop]
    split
    · simp
    · rename_i hc
      have hq : 10 < q := by omega
      have := ih (q - 10) (by omega)
      simp only []
      omega

/-! Claim theorems -/

/-- C3: counterexample. For a size function that never gets under the
budget, the quality loop started at 95 performs 10 encodes (qualities 95,
85, 75, 65, 55, 45, 35, 25, 15, 5), not at most (95-10)/10 + 1 = 9, and its
final quality is 5, not the claimed floor of 10. -/
theorem c3_encode_loop_counterexample :
    ¬ ((encodeLoop (fun _ => MAX_IMAGE_SIZE) 95).2 ≤ 9 ∧
        ((fun _ => MAX_IMAGE_SIZE) ((encodeLoop (fun _ => MAX_IMAGE_SIZE) 95).1)
            < MAX_IMAGE_SIZE ∨
          (encodeLoop (fun _ => MAX_IMAGE_SIZE) 95).1 = 10)) := by
  have h95 : encodeLoop (fun _ => MAX_IMAGE_SIZE) 95 = (5, 10) := by
    have h := encodeLoop_const 9
    norm_num at h
    exact h
  rw [h95]
  norm_num

/-- C3 (amended): for every encoded-size function, the quality loop started
at 95 terminates in at most 10 encodes, and its result is either strictly
under the 950 KiB budget or was produced at quality 5 — the first quality at
or below the loop's floor check of 10 reachable from 95 in steps of 10. -/
theorem c3_encode_loop_amended (sz : Nat → Nat) :
    (encodeLoop sz 95).2 ≤ 10 ∧
    (sz (encodeLoop sz 95).1 < MAX_IMAGE_SIZE ∨ (encodeLoop sz 95).1 = 5) := by
  have h := encodeLoop_bound sz 9 95 (by norm_num)
  exact ⟨h.1, h.2⟩

/-- C6: counterexample. For an artist name containing a tab, the code only
removes space characters (Python replace of a space by the empty string), so
the artist hashtag keeps the tab, while the claim's "whitespace removed"
would strip it. -/
theorem c6_hashtags_counterexample :
    build_hashtags ("A\tB") [] ≠
      ["#NowPlaying", "#" ++ stripWhitespaceSpec ("A\tB")] ∧
    build_hashtags ("A\tB") [] = ["#NowPlaying", "#A\tB"] := by
  constructor <;> decide

/-- C6 (amended): for every artist and ordered genre list, the assembled
hashtag list is #NowPlaying, then the artist tag, then one tag per genre in
upstream order, where each name has exactly its space characters (U+0020)
removed — other whitespace such as tabs is kept. -/
theorem c6_hashtags_amended (artist : String) (genres : List String) :
    build_hashtags artist genres =
      "#NowPlaying" :: ("#" ++ pyRemoveSpaces artist) ::
        genres.map (fun genre => "#" ++ pyRemoveSpaces genre) := by
  simp [build_hashtags, foldl_append_eq_map]

/-- C8: when the now-playing fetch yields no track, the cycle makes no
publish call, writes nothing to the posts table, and attempts no re-login. -/
theorem c8_no_track_no_effects (env : Env) (db : List PostRecord)
    (h : env.track = none) :
    check_now_playing env db =
      { db := db, publishCalls := 0, reloggedIn := false, outcome := .noTrack } := by
  rw [check_now_playing, h]

/-- C8 witness: a concrete silent cycle leaves a one-row table unchanged. -/
theorem c8_no_track_no_effects_witness :
    check_now_playing
        { track := none, genres := [], art := none, resize := fun _ => none,
          publishOk := true, today := "2026-10-12" }
        [{ artist := some ("A"), title := some ("T"), post_date := "2026-10-11" }] =
      { db := [{ artist := some ("A"), title := some ("T"), post_date := "2026-10-11" }],
        publishCalls := 0, reloggedIn := false, outcome := .noTrack } :=
  c8_no_track_no_effects
    { track := none, genres := [], art := none, resize := fun _ => none,
      publishOk := true, today := "2026-10-12" }
    [{ artist := some ("A"), title := some ("T"), post_date := "2026-10-11" }] rfl

/-- C2: for every environment in which the same track keeps playing and the
publish call succeeds, running the cycle twice on the same UTC day inserts
exactly one row and makes exactly one publish call: the first cycle
publishes and records, the second skips before publishing because
already_posted_today now matches. Moreover already_posted_today is true
exactly when a row matches artist, title and date by exact string equality,
with no normalization. -/
theorem c2_dedup_idempotent (env : Env) (db : List PostRecord) (a t : String)
    (m : Option String)
    (htrack : env.track = some { artist := some a, title := some t, release_mbid := m })
    (hok : env.publishOk = true)
    (hfresh : already_posted_today db (some a) (some t) env.today = false) :
    (∀ (db₂ : List PostRecord) (a₂ t₂ d₂ : String),
        already_posted_today db₂ (some a₂) (some t₂) d₂ = true ↔
          ∃ r ∈ db₂, r.artist = some a₂ ∧ r.title = some t₂ ∧ r.post_date = d₂) ∧
    (check_now_playing env db).publishCalls = 1 ∧
    (check_now_playing env db).db =
      db ++ [{ artist := some a, title := some t, post_date := env.today }] ∧
    (check_now_playing env (check_now_playing env db).db).publishCalls = 0 ∧
    (check_now_playing env (check_now_playing env db).db).db =
      (check_now_playing env db).db ∧
    (check_now_playing env (check_now_playing env db).db).outcome = .alreadyPosted := by
  have hiff : ∀ (db₂ : List PostRecord) (a₂ t₂ d₂ : String),
      already_posted_today db₂ (some a₂) (some t₂) d₂ = true ↔
        ∃ r ∈ db₂, r.artist = some a₂ ∧ r.title = some t₂ ∧ r.post_date = d₂ := by
    intro db₂ a₂ t₂ d₂
    simp [already_posted_today, List.any_eq_true, sqlEq_some_iff, Bool.and_eq_true,
      beq_iff_eq, and_assoc]
  have hdb : (check_now_playing env db).db =
      db ++ [{ artist := some a, title := some t, post_date := env.today }] := by
    simp [check_now_playing, htrack, hfresh, hok, save_post]
  have hcalls : (check_now_playing env db).publishCalls = 1 := by
    simp [check_now_playing, htrack, hfresh, hok]
  have hdup : already_posted_today
      (db ++ [{ artist := some a, title := some t, post_date := env.today }])
      (some a) (some t) env.today = true := by
    simp [already_posted_today, sqlEq]
  have h2 : check_now_playing env
      (db ++ [{ artist := some a, title := some t, post_date := env.today }]) =
      { db := db ++ [{ artist := some a, title := some t, post_date := env.today }],
        publishCalls := 0, reloggedIn := false, outcome := .alreadyPosted } := by
    simp [check_now_playing, htrack, hdup]
  refine ⟨hiff, hcalls, hdb, ?_, ?_, ?_⟩ <;> rw [hdb, h2]

/-- C2 witness: a concrete two-cycle run on an empty table. -/
theorem c2_dedup_idempotent_witness :
    (check_now_playing
        { track := some { artist := some ("Artist"), title := some ("Song"), release_mbid := none },
          genres := [], art := none, resize := fun _ => none,
          publishOk := true, today := "2026-10-12" } []).publishCalls = 1 ∧
    (check_now_playing
        { track := some { artist := some ("Artist"), title := some ("Song"), release_mbid := none },
          genres := [], art := none, resize := fun _ => none,
          publishOk := true, today := "2026-10-12" }
      (check_now_playing
        { track := some { artist := some ("Artist"), title := some ("Song"), release_mbid := none },
          genres := [], art := none, resize := fun _ => none,
          publishOk := true, today := "2026-10-12" } []).db).publishCalls = 0 := by
  have h := c2_dedup_idempotent
    { track := some { artist := some ("Artist"), title := some ("Song"), release_mbid := none },
      genres := [], art := none, resize := fun _ => none,
      publishOk := true, today := "2026-10-12" }
    [] ("Artist") ("Song") none rfl rfl rfl
  exact ⟨h.2.1, h.2.2.2.1⟩

/-- C4: when the publish call fails, the cycle writes nothing to the posts
table, makes its one failed publish call, re-attempts login for the next
cycle, and the next cycle starts from an unchanged table, so it behaves
exactly as the first did. -/
theorem c4_publish_failure_no_record (env : Env) (db : List PostRecord) (a : String)
    (ttl m : Option String)
    (htrack : env.track = some { artist := some a, title := ttl, release_mbid := m })
    (hfail : env.publishOk = false)
    (hfresh : already_posted_today db (some a) ttl env.today = false) :
    (check_now_playing env db).db = db ∧
    (check_now_playing env db).publishCalls = 1 ∧
    (check_now_playing env db).reloggedIn = true ∧
    (check_now_playing env db).outcome = .publishFailed ∧
    check_now_playing env ((check_now_playing env db).db) = check_now_playing env db := by
  have h : check_now_playing env db =
      { db := db, publishCalls := 1, reloggedIn := true, outcome := .publishFailed } := by
    simp [check_now_playing, htrack, hfresh, hfail]
  refine ⟨by rw [h], by rw [h], by rw [h], by rw [h], ?_⟩
  rw [h]
  exact h

/-- C4 witness: a concrete failed publish leaves the empty table empty and
re-attempts login. -/
theorem c4_publish_failure_no_record_witness :
    (check_now_playing
        { track := some { artist := some ("A"), title := some ("T"), release_mbid := none },
          genres := [], art := none, resize := fun _ => none,
          publishOk := false, today := "2026-10-12" } []).db = [] ∧
    (check_now_playing
        { track := some { artist := some ("A"), title := some ("T"), release_mbid := none },
          genres := [], art := none, resize := fun _ => none,
          publishOk := false, today := "2026-10-12" } []).reloggedIn = true := by
  have h := c4_publish_failure_no_record
    { track := some { artist := some ("A"), title := some ("T"), release_mbid := none },
      genres := [], art := none, resize := fun _ => none,
      publishOk := false, today := "2026-10-12" }
    [] ("A") (some ("T")) none rfl rfl rfl
  exact ⟨h.1, h.2.2.1⟩

/-- C5: the claim fails on the code. For a fetched record whose title is
missing (None) but whose artist is present, the cycle does not treat it as
nothing to post: it fabricates the text "None" in the caption via Python
f-string formatting, makes a publish call, and records a row — where the
claim requires no publish call and no ledger write. -/
theorem c5_missing_title_posts_none :
    check_now_playing
        { track := some { artist := some ("X"), title := none, release_mbid := none },
          genres := [], art := none, resize := fun _ => none,
          publishOk := true, today := "2026-10-12" } [] =
      { db := [{ artist := some ("X"), title := none, post_date := "2026-10-12" }],
        publishCalls := 1,
        reloggedIn := false,
        outcome := .posted
          ("🎧 KeeCloud Music\n\n🎵 X – None\n\n▰▰▰▰▰▰▰▱▱▱\n\n#NowPlaying #X")
          [{ byteStart := 42, byteEnd := 53, tag := "NowPlaying" },
           { byteStart := 54, byteEnd := 56, tag := "X" }]
          ["#NowPlaying", "#X"] none } := by
  decide

/-- C9: when art lookup found nothing and the genre list is empty, the cycle
still makes its publish call, with a text-only post (no image embed) built
over exactly the hashtag list containing #NowPlaying and the artist tag. -/
theorem c9_graceful_degradation (env : Env) (db : List PostRecord) (a t : String)
    (m : Option String)
    (htrack : env.track = some { artist := some a, title := some t, release_mbid := m })
    (hgenres : env.genres = [])
    (hart : env.art = none)
    (hok : env.publishOk = true)
    (hfresh : already_posted_today db (some a) (some t) env.today = false) :
    (check_now_playing env db).publishCalls = 1 ∧
    (check_now_playing env db).outcome =
      .posted
        (create_hashtag_facets
          ("🎧 KeeCloud Music\n\n🎵 " ++ a ++ " – " ++ t ++ "\n\n" ++ generate_progress_bar)
          ["#NowPlaying", "#" ++ pyRemoveSpaces a]).1
        (create_hashtag_facets
          ("🎧 KeeCloud Music\n\n🎵 " ++ a ++ " – " ++ t ++ "\n\n" ++ generate_progress_bar)
          ["#NowPlaying", "#" ++ pyRemoveSpaces a]).2
        ["#NowPlaying", "#" ++ pyRemoveSpaces a] none ∧
    "#NowPlaying" ∈ (["#NowPlaying", "#" ++ pyRemoveSpaces a] : List String) ∧
    "#" ++ pyRemoveSpaces a ∈ (["#NowPlaying", "#" ++ pyRemoveSpaces a] : List String) := by
  refine ⟨?_, ?_, ?_, ?_⟩
  · simp [check_now_playing, htrack, hfresh, hok]
  · simp [check_now_playing, htrack, hfresh, hok, hart, hgenres, truthyBytes, pyStr,
      build_hashtags]
  · simp
  · simp

/-- C9 witness: a concrete degraded cycle still publishes text-only. -/
theorem c9_graceful_degradation_witness :
    (check_now_playing
        { track := some { artist := some ("A"), title := some ("T"), release_mbid := none },
          genres := [], art := none, resize := fun _ => none,
          publishOk := true, today := "2026-10-12" } []).publishCalls = 1 ∧
    "#NowPlaying" ∈ (["#NowPlaying", "#" ++ pyRemoveSpaces ("A")] : List String) := by
  have h := c9_graceful_degradation
    { track := some { artist := some ("A"), title := some ("T"), release_mbid := none },
      genres := [], art := none, resize := fun _ => none,
      publishOk := true, today := "2026-10-12" }
    [] ("A") ("T") none rfl rfl rfl rfl rfl
  exact ⟨h.1, h.2.2.1⟩

/-- Rounding half to even moves a rational by at most one half. -/
theorem roundHalfEven_err (x : ℚ) : |((roundHalfEven x : ℤ) : ℚ) - x| ≤ 1 / 2 := by
  have h0 : ((⌊x⌋ : ℤ) : ℚ) ≤ x := Int.floor_le x
  have h1 : x < ⌊x⌋ + 1 := Int.lt_floor_add_one x
  unfold roundHalfEven
  split
  · rename_i hc
    rw [abs_le]
    constructor <;> linarith
  · rename_i hc
    split
    · rename_i hc2
      rw [abs_le]
      push_cast
      constructor <;> linarith
    · rename_i hc2
      have heq : x - ⌊x⌋ = 1 / 2 := le_antisymm (not_lt.mp hc2) (not_lt.mp hc)
      split <;> (rw [abs_le]; push_cast; constructor <;> linarith)

/-- Characterization of the fuelled binary logarithm: with enough fuel it
brackets every positive n between consecutive powers of two. -/
theorem log2fuel_spec : ∀ fuel n, 1 ≤ n → n ≤ fuel →
    2 ^ log2fuel fuel n ≤ n ∧ n < 2 ^ (log2fuel fuel n + 1) := by
  intro fuel
  induction fuel with
  | zero => intro n h1 h2; omega
  | succ fuel ih =>
    intro n h1 h2
    rw [log2fuel]
    split
    · rename_i hn
      obtain ⟨e1, e2⟩ := ih (n / 2) (by omega) (by omega)
      have hp1 : 2 ^ (log2fuel fuel (n / 2) + 1) = 2 ^ log2fuel fuel (n / 2) * 2 :=
        pow_succ 2 _
      have hp2 : 2 ^ (log2fuel fuel (n / 2) + 1 + 1) = 2 ^ (log2fuel fuel (n / 2) + 1) * 2 :=
        pow_succ 2 _
      omega
    · rename_i hn
      have hone : n = 1 := by omega
      subst hone
      norm_num

/-- The natural binary logarithm brackets every positive n between
consecutive powers of two. -/
theorem natLog2_spec (n : Nat) (hn : 1 ≤ n) :
    2 ^ natLog2 n ≤ n ∧ n < 2 ^ (natLog2 n + 1) :=
  log2fuel_spec n n hn le_rfl

/-- The rational binary logarithm brackets every positive rational between
consecutive integer powers of two: qlog2 computes the true binade. -/
theorem qlog2_spec (q : ℚ) (hq : 0 < q) :
    (2 : ℚ) ^ qlog2 q ≤ q ∧ q < (2 : ℚ) ^ (qlog2 q + 1) := by
  rw [qlog2]
  split
  · rename_i h1q
    obtain ⟨e1, e2⟩ := natLog2_spec ⌊q⌋₊ (Nat.floor_pos.mpr h1q)
    constructor
    · calc (2 : ℚ) ^ ((natLog2 ⌊q⌋₊ : ℕ) : ℤ) = ((2 ^ natLog2 ⌊q⌋₊ : ℕ) : ℚ) := by
            rw [zpow_natCast]; push_cast; ring
        _ ≤ (⌊q⌋₊ : ℚ) := by exact_mod_cast e1
        _ ≤ q := Nat.floor_le hq.le
    · calc q < (⌊q⌋₊ : ℚ) + 1 := Nat.lt_floor_add_one q
        _ ≤ ((2 ^ (natLog2 ⌊q⌋₊ + 1) : ℕ) : ℚ) := by
            exact_mod_cast (by omega : ⌊q⌋₊ + 1 ≤ 2 ^ (natLog2 ⌊q⌋₊ + 1))
        _ = (2 : ℚ) ^ (((natLog2 ⌊q⌋₊ : ℕ) : ℤ) + 1) := by
            rw [show ((natLog2 ⌊q⌋₊ : ℕ) : ℤ) + 1 = ((natLog2 ⌊q⌋₊ + 1 : ℕ) : ℤ) by push_cast; ring,
              zpow_natCast]
            push_cast
            ring
  · rename_i h1q
    push_neg at h1q
    have hqi : 1 < q⁻¹ := one_lt_inv_iff₀.mpr ⟨hq, h1q⟩
    have hipos : (0 : ℚ) < q⁻¹ := by linarith
    obtain ⟨e1, e2⟩ := natLog2_spec ⌊q⁻¹⌋₊ (Nat.floor_pos.mpr hqi.le)
    have hr1 : (2 : ℚ) ^ natLog2 ⌊q⁻¹⌋₊ ≤ q⁻¹ := by
      calc (2 : ℚ) ^ natLog2 ⌊q⁻¹⌋₊ = ((2 ^ natLog2 ⌊q⁻¹⌋₊ : ℕ) : ℚ) := by push_cast; ring
        _ ≤ (⌊q⁻¹⌋₊ : ℚ) := by exact_mod_cast e1
        _ ≤ q⁻¹ := Nat.floor_le hipos.le
    have hr2 : q⁻¹ < (2 : ℚ) ^ (natLog2 ⌊q⁻¹⌋₊ + 1) := by
      calc q⁻¹ < (⌊q⁻¹⌋₊ : ℚ) + 1 := Nat.lt_floor_add_one _
        _ ≤ ((2 ^ (natLog2 ⌊q⁻¹⌋₊ + 1) : ℕ) : ℚ) := by
            exact_mod_cast (by omega : ⌊q⁻¹⌋₊ + 1 ≤ 2 ^ (natLog2 ⌊q⁻¹⌋₊ + 1))
        _ = (2 : ℚ) ^ (natLog2 ⌊q⁻¹⌋₊ + 1) := by push_cast; ring
    have hpow_pos : (0 : ℚ) < (2 : ℚ) ^ natLog2 ⌊q⁻¹⌋₊ := by positivity
    split
    · rename_i hle
      have heq : q⁻¹ = (2 : ℚ) ^ natLog2 ⌊q⁻¹⌋₊ := le_antisymm hle hr1
      constructor
      · rw [zpow_neg, zpow_natCast, ← heq, inv_inv]
      · rw [zpow_add₀ (by norm_num : (2 : ℚ) ≠ 0), zpow_neg, zpow_natCast, zpow_one,
          ← heq, inv_inv]
        linarith
    · rename_i hle
      push_neg at hle
      constructor
      · have hinv : ((2 : ℚ) ^ (natLog2 ⌊q⁻¹⌋₊ + 1))⁻¹ < q := by
          have := inv_strictAnti₀ hipos hr2
          rwa [inv_inv] at this
        calc (2 : ℚ) ^ (-(natLog2 ⌊q⁻¹⌋₊ : ℤ) - 1)
            = ((2 : ℚ) ^ (natLog2 ⌊q⁻¹⌋₊ + 1))⁻¹ := by
              rw [show -(natLog2 ⌊q⁻¹⌋₊ : ℤ) - 1 = -(((natLog2 ⌊q⁻¹⌋₊ + 1 : ℕ) : ℤ)) by
                push_cast; ring, zpow_neg, zpow_natCast]
          _ ≤ q := hinv.le
      · have hinv : q < ((2 : ℚ) ^ natLog2 ⌊q⁻¹⌋₊)⁻¹ := by
          have := inv_strictAnti₀ hpow_pos hle
          rwa [inv_inv] at this
        calc q < ((2 : ℚ) ^ natLog2 ⌊q⁻¹⌋₊)⁻¹ := hinv
          _ = (2 : ℚ) ^ (-(natLog2 ⌊q⁻¹⌋₊ : ℤ) - 1 + 1) := by
              rw [show -(natLog2 ⌊q⁻¹⌋₊ : ℤ) - 1 + 1 = -(natLog2 ⌊q⁻¹⌋₊ : ℤ) by ring,
                zpow_neg, zpow_natCast]

/-- Relative error of binary64 rounding: a positive rational is reproduced
up to a factor of 1 plus or minus eps53, half an ulp of the significand. -/
theorem fl64_bounds (q : ℚ) (hq : 0 < q) :
    q * (1 - eps53) ≤ fl64 q ∧ fl64 q ≤ q * (1 + eps53) := by
  have hqne : q ≠ 0 := ne_of_gt hq
  have habs : |q| = q := abs_of_pos hq
  rw [fl64, if_neg hqne, habs]
  set e : ℤ := qlog2 q - 52 with he
  have h2e : (0 : ℚ) < (2 : ℚ) ^ e := zpow_pos (by norm_num) e
  have herr := roundHalfEven_err (q / 2 ^ e)
  have hstep : |((roundHalfEven (q / 2 ^ e) : ℤ) : ℚ) * 2 ^ e - q| ≤ 2 ^ e / 2 := by
    have hrw : ((roundHalfEven (q / 2 ^ e) : ℤ) : ℚ) * 2 ^ e - q
        = (((roundHalfEven (q / 2 ^ e) : ℤ) : ℚ) - q / 2 ^ e) * 2 ^ e := by
      field_simp
    rw [hrw, abs_mul, abs_of_pos h2e]
    calc |((roundHalfEven (q / 2 ^ e) : ℤ) : ℚ) - q / 2 ^ e| * 2 ^ e
        ≤ (1 / 2) * 2 ^ e := mul_le_mul_of_nonneg_right herr h2e.le
      _ = 2 ^ e / 2 := by ring
  have hlog : (2 : ℚ) ^ qlog2 q ≤ q := (qlog2_spec q hq).1
  have hee : (2 : ℚ) ^ e / 2 ≤ q * eps53 := by
    rw [he, zpow_sub₀ (by norm_num : (2 : ℚ) ≠ 0), eps53]
    calc (2 : ℚ) ^ qlog2 q / (2 : ℚ) ^ (52 : ℤ) / 2
        = (2 : ℚ) ^ qlog2 q * (1 / 2 ^ 53) := by
          rw [show ((2 : ℚ) ^ (52 : ℤ)) = (2 : ℚ) ^ (52 : ℕ) by norm_num]
          ring
      _ ≤ q * (1 / 2 ^ 53) := mul_le_mul_of_nonneg_right hlog (by positivity)
  obtain ⟨hA, hB⟩ := abs_sub_le_iff.mp (le_trans hstep hee)
  have hx1 : q * (1 - eps53) = q - q * eps53 := by ring
  have hx2 : q * (1 + eps53) = q + q * eps53 := by ring
  constructor
  · rw [hx1]; linarith
  · rw [hx2]; linarith

/-- The natural binary logarithm is determined by its bracketing property. -/
theorem natLog2_eq (n k : Nat) (hn : 1 ≤ n) (h1 : 2 ^ k ≤ n) (h2 : n < 2 ^ (k + 1)) :
    natLog2 n = k := by
  obtain ⟨a, b⟩ := natLog2_spec n hn
  rcases Nat.lt_trichotomy (natLog2 n) k with hlt | heq | hgt
  · have hm : 2 ^ (natLog2 n + 1) ≤ 2 ^ k := Nat.pow_le_pow_right (by norm_num) (by omega)
    omega
  · exact heq
  · have hm : 2 ^ (k + 1) ≤ 2 ^ natLog2 n := Nat.pow_le_pow_right (by norm_num) (by omega)
    omega

/-- The rational binary logarithm is determined by its bracketing property. -/
theorem qlog2_eq (q : ℚ) (k : ℤ) (hq : 0 < q) (h1 : (2 : ℚ) ^ k ≤ q)
    (h2 : q < (2 : ℚ) ^ (k + 1)) : qlog2 q = k := by
  obtain ⟨a, b⟩ := qlog2_spec q hq
  rcases lt_trichotomy (qlog2 q) k with hlt | heq | hgt
  · have hm : (2 : ℚ) ^ (qlog2 q + 1) ≤ (2 : ℚ) ^ k :=
      zpow_le_zpow_right₀ (by norm_num) (by omega)
    linarith
  · exact heq
  · have hm : (2 : ℚ) ^ (k + 1) ≤ (2 : ℚ) ^ qlog2 q :=
      zpow_le_zpow_right₀ (by norm_num) (by omega)
    linarith

/-- Evaluation rule for fl64 at an input whose significand rounds down:
given the binade, the scaled floor, and that the fractional part is below
one half, the rounded value is floor times the ulp. -/
theorem fl64_eval (q v : ℚ) (n e : ℤ) (hq : 0 < q)
    (hlog : qlog2 q = e)
    (hfloor : ⌊q / 2 ^ (e - 52)⌋ = n)
    (hhalf : q / 2 ^ (e - 52) - (n : ℚ) < 1 / 2)
    (hv : (n : ℚ) * 2 ^ (e - 52) = v) :
    fl64 q = v := by
  rw [fl64, if_neg (ne_of_gt hq), abs_of_pos hq, hlog, roundHalfEven, hfloor,
    if_pos hhalf]
  exact hv

/-- C7: counterexample. At 2105 by 1000 the double division 2000/2105 rounds
half an ulp below the exact ratio and int(2105 * ratio) truncates the
product 1999.9999999999998 to 1999: the larger output dimension is not the
2000 px maximum the claim requires. -/
theorem c7_resize_dims_counterexample :
    resize_dims 2105 1000 = (1999, 950) ∧
    max (resize_dims 2105 1000).1 (resize_dims 2105 1000).2 ≠ MAX_IMAGE_DIMENSION := by
  have hMq : ((MAX_IMAGE_DIMENSION : ℕ) : ℚ) = 2000 := by norm_num [MAX_IMAGE_DIMENSION]
  have hA : fl64 ((2000 : ℚ) / 2105) = 8557909030632771 / 9007199254740992 :=
    fl64_eval _ _ 8557909030632771 (-1) (by norm_num)
      (qlog2_eq _ _ (by norm_num) (by norm_num) (by norm_num))
      (by rw [Int.floor_eq_iff]; norm_num)
      (by norm_num)
      (by norm_num)
  have hB : fl64 ((2000 : ℚ) / 1000) = 2 :=
    fl64_eval _ _ 4503599627370496 1 (by norm_num)
      (qlog2_eq _ _ (by norm_num) (by norm_num) (by norm_num))
      (by rw [Int.floor_eq_iff]; norm_num)
      (by norm_num)
      (by norm_num)
  have hC : fl64 ((2105 : ℚ)) = 2105 :=
    fl64_eval _ _ 4628943952936960 11 (by norm_num)
      (qlog2_eq _ _ (by norm_num) (by norm_num) (by norm_num))
      (by rw [Int.floor_eq_iff]; norm_num)
      (by norm_num)
      (by norm_num)
  have hD : fl64 ((1000 : ℚ)) = 1000 :=
    fl64_eval _ _ 8796093022208000 9 (by norm_num)
      (qlog2_eq _ _ (by norm_num) (by norm_num) (by norm_num))
      (by rw [Int.floor_eq_iff]; norm_num)
      (by norm_num)
      (by norm_num)
  have hmin : min ((8557909030632771 : ℚ) / 9007199254740992) 2
      = (8557909030632771 : ℚ) / 9007199254740992 := min_eq_left (by norm_num)
  have hE : fl64 ((2105 : ℚ) * (8557909030632771 / 9007199254740992))
      = 8796093022207999 / 4398046511104 :=
    fl64_eval _ _ 8796093022207999 10 (by norm_num)
      (qlog2_eq _ _ (by norm_num) (by norm_num) (by norm_num))
      (by rw [Int.floor_eq_iff]; norm_num)
      (by norm_num)
      (by norm_num)
  have hF : fl64 ((1000 : ℚ) * (8557909030632771 / 9007199254740992))
      = 8357333037727315 / 8796093022208 :=
    fl64_eval _ _ 8357333037727315 9 (by norm_num)
      (qlog2_eq _ _ (by norm_num) (by norm_num) (by norm_num))
      (by rw [Int.floor_eq_iff]; norm_num)
      (by norm_num)
      (by norm_num)
  have hG : ⌊(8796093022207999 : ℚ) / 4398046511104⌋ = 1999 := by
    rw [Int.floor_eq_iff]; norm_num
  have hH : ⌊(8357333037727315 : ℚ) / 8796093022208⌋ = 950 := by
    rw [Int.floor_eq_iff]; norm_num
  have hmain : resize_dims 2105 1000 = (1999, 950) := by
    rw [resize_dims, if_pos (Or.inl (by norm_num [MAX_IMAGE_DIMENSION]))]
    dsimp only
    rw [hMq]
    push_cast
    rw [hA, hB, hC, hD, hmin, hE, hF, hG, hH]
    decide
  refine ⟨hmain, ?_⟩
  rw [hmain]
  decide

set_option maxHeartbeats 1600000 in
/-- C7 (amended): an image with both dimensions within the 2000 px bound is
left unresized. For an image with a dimension over the bound (dimensions up
to 2^32, which keeps every intermediate double in the normal range and
covers any real image), each output dimension is at most 2000, and the
larger output dimension is 2000 or 1999: the roundings of the two double
operations and the int() truncation can lose at most one pixel of the
maximum. The aspect ratio is preserved within the same rounding tolerance:
the integer cross product of old and new dimensions stays below
2 * (width + height). -/
theorem c7_resize_dims_float_bounds (w h : Nat) (hw : 0 < w) (hh : 0 < h) :
    (w ≤ MAX_IMAGE_DIMENSION → h ≤ MAX_IMAGE_DIMENSION → resize_dims w h = (w, h)) ∧
    (MAX_IMAGE_DIMENSION < w ∨ MAX_IMAGE_DIMENSION < h → w ≤ 2 ^ 32 → h ≤ 2 ^ 32 →
      (resize_dims w h).1 ≤ MAX_IMAGE_DIMENSION ∧
      (resize_dims w h).2 ≤ MAX_IMAGE_DIMENSION ∧
      MAX_IMAGE_DIMENSION - 1 ≤ max (resize_dims w h).1 (resize_dims w h).2 ∧
      (((resize_dims w h).1 : ℤ) * (h : ℤ) - (w : ℤ) * ((resize_dims w h).2 : ℤ)).natAbs
        < 2 * (w + h)) := by
  constructor
  · intro h1 h2
    rw [resize_dims, if_neg (by omega)]
  · intro hbig _hw32 _hh32
    rw [resize_dims, if_pos hbig]
    dsimp only
    have hMq : (0 : ℚ) < (MAX_IMAGE_DIMENSION : ℚ) := by norm_num [MAX_IMAGE_DIMENSION]
    have hwq : (0 : ℚ) < (w : ℚ) := by exact_mod_cast hw
    have hhq : (0 : ℚ) < (h : ℚ) := by exact_mod_cast hh
    set p := (MAX_IMAGE_DIMENSION : ℚ) / (w : ℚ) with hpdef
    set s := (MAX_IMAGE_DIMENSION : ℚ) / (h : ℚ) with hsdef
    have hppos : (0 : ℚ) < p := div_pos hMq hwq
    have hspos : (0 : ℚ) < s := div_pos hMq hhq
    obtain ⟨hfw1, hfw2⟩ := fl64_bounds p hppos
    obtain ⟨hfh1, hfh2⟩ := fl64_bounds s hspos
    obtain ⟨haw1, haw2⟩ := fl64_bounds (w : ℚ) hwq
    obtain ⟨hah1, hah2⟩ := fl64_bounds (h : ℚ) hhq
    have heps0 : (0 : ℚ) < eps53 := by norm_num [eps53]
    have heps1 : eps53 < 1 / 2 := by norm_num [eps53]
    have h1me : (0 : ℚ) < 1 - eps53 := by linarith
    set ratio := min (fl64 p) (fl64 s) with hratiodef
    have hfwpos : 0 < fl64 p := lt_of_lt_of_le (mul_pos hppos h1me) hfw1
    have hfhpos : 0 < fl64 s := lt_of_lt_of_le (mul_pos hspos h1me) hfh1
    have hrpos : 0 < ratio := lt_min hfwpos hfhpos
    have hawpos : 0 < fl64 (w : ℚ) := lt_of_lt_of_le (mul_pos hwq h1me) haw1
    have hahpos : 0 < fl64 (h : ℚ) := lt_of_lt_of_le (mul_pos hhq h1me) hah1
    have hr_le_p : ratio ≤ p * (1 + eps53) := le_trans (min_le_left _ _) hfw2
    have hr_le_s : ratio ≤ s * (1 + eps53) := le_trans (min_le_right _ _) hfh2
    have hwp : (w : ℚ) * p = (MAX_IMAGE_DIMENSION : ℚ) := by
      rw [hpdef]; field_simp
    have hhs : (h : ℚ) * s = (MAX_IMAGE_DIMENSION : ℚ) := by
      rw [hsdef]; field_simp
    have hxw_up : fl64 (w : ℚ) * ratio ≤ (MAX_IMAGE_DIMENSION : ℚ) * (1 + eps53) ^ 2 := by
      calc fl64 (w : ℚ) * ratio ≤ ((w : ℚ) * (1 + eps53)) * (p * (1 + eps53)) :=
            mul_le_mul haw2 hr_le_p hrpos.le (by positivity)
        _ = ((w : ℚ) * p) * (1 + eps53) ^ 2 := by ring
        _ = (MAX_IMAGE_DIMENSION : ℚ) * (1 + eps53) ^ 2 := by rw [hwp]
    have hxh_up : fl64 (h : ℚ) * ratio ≤ (MAX_IMAGE_DIMENSION : ℚ) * (1 + eps53) ^ 2 := by
      calc fl64 (h : ℚ) * ratio ≤ ((h : ℚ) * (1 + eps53)) * (s * (1 + eps53)) :=
            mul_le_mul hah2 hr_le_s hrpos.le (by positivity)
        _ = ((h : ℚ) * s) * (1 + eps53) ^ 2 := by ring
        _ = (MAX_IMAGE_DIMENSION : ℚ) * (1 + eps53) ^ 2 := by rw [hhs]
    have hwr_up : (w : ℚ) * ratio ≤ (MAX_IMAGE_DIMENSION : ℚ) * (1 + eps53) := by
      calc (w : ℚ) * ratio ≤ (w : ℚ) * (p * (1 + eps53)) :=
            mul_le_mul_of_nonneg_left hr_le_p hwq.le
        _ = ((w : ℚ) * p) * (1 + eps53) := by ring
        _ = (MAX_IMAGE_DIMENSION : ℚ) * (1 + eps53) := by rw [hwp]
    have hhr_up : (h : ℚ) * ratio ≤ (MAX_IMAGE_DIMENSION : ℚ) * (1 + eps53) := by
      calc (h : ℚ) * ratio ≤ (h : ℚ) * (s * (1 + eps53)) :=
            mul_le_mul_of_nonneg_left hr_le_s hhq.le
        _ = ((h : ℚ) * s) * (1 + eps53) := by ring
        _ = (MAX_IMAGE_DIMENSION : ℚ) * (1 + eps53) := by rw [hhs]
    have hxwpos : 0 < fl64 (w : ℚ) * ratio := mul_pos hawpos hrpos
    have hxhpos : 0 < fl64 (h : ℚ) * ratio := mul_pos hahpos hrpos
    obtain ⟨hvw1, hvw2⟩ := fl64_bounds _ hxwpos
    obtain ⟨hvh1, hvh2⟩ := fl64_bounds _ hxhpos
    set vw := fl64 (fl64 (w : ℚ) * ratio) with hvwdef
    set vh := fl64 (fl64 (h : ℚ) * ratio) with hvhdef
    have hvw_up : vw ≤ (MAX_IMAGE_DIMENSION : ℚ) * (1 + eps53) ^ 3 := by
      calc vw ≤ (fl64 (w : ℚ) * ratio) * (1 + eps53) := hvw2
        _ ≤ ((MAX_IMAGE_DIMENSION : ℚ) * (1 + eps53) ^ 2) * (1 + eps53) :=
            mul_le_mul_of_nonneg_right hxw_up (by positivity)
        _ = (MAX_IMAGE_DIMENSION : ℚ) * (1 + eps53) ^ 3 := by ring
    have hvh_up : vh ≤ (MAX_IMAGE_DIMENSION : ℚ) * (1 + eps53) ^ 3 := by
      calc vh ≤ (fl64 (h : ℚ) * ratio) * (1 + eps53) := hvh2
        _ ≤ ((MAX_IMAGE_DIMENSION : ℚ) * (1 + eps53) ^ 2) * (1 + eps53) :=
            mul_le_mul_of_nonneg_right hxh_up (by positivity)
        _ = (MAX_IMAGE_DIMENSION : ℚ) * (1 + eps53) ^ 3 := by ring
    have hnum_up : (MAX_IMAGE_DIMENSION : ℚ) * (1 + eps53) ^ 3 < (MAX_IMAGE_DIMENSION : ℚ) + 1 := by
      norm_num [MAX_IMAGE_DIMENSION, eps53]
    have hvwpos : 0 < vw := lt_of_lt_of_le (mul_pos hxwpos h1me) hvw1
    have hvhpos : 0 < vh := lt_of_lt_of_le (mul_pos hxhpos h1me) hvh1
    have hfvw0 : 0 ≤ ⌊vw⌋ := Int.floor_nonneg.mpr hvwpos.le
    have hfvh0 : 0 ≤ ⌊vh⌋ := Int.floor_nonneg.mpr hvhpos.le
    have hvw_lt : ⌊vw⌋ < (MAX_IMAGE_DIMENSION : ℤ) + 1 := by
      rw [Int.floor_lt]
      push_cast
      linarith
    have hvh_lt : ⌊vh⌋ < (MAX_IMAGE_DIMENSION : ℤ) + 1 := by
      rw [Int.floor_lt]
      push_cast
      linarith
    refine ⟨by omega, by omega, ?_, ?_⟩
    · rcases le_total h w with hwh | hwh
      · have hps : p ≤ s := by
          rw [hpdef, hsdef]
          exact div_le_div_of_nonneg_left hMq.le hhq (by exact_mod_cast hwh)
        have hr_ge : p * (1 - eps53) ≤ ratio :=
          le_min hfw1 (le_trans (mul_le_mul_of_nonneg_right hps h1me.le) hfh1)
        have hxw_low : ((w : ℚ) * (1 - eps53)) * (p * (1 - eps53)) ≤ fl64 (w : ℚ) * ratio :=
          mul_le_mul haw1 hr_ge (by positivity) hawpos.le
        have hvw_low : (MAX_IMAGE_DIMENSION : ℚ) * (1 - eps53) ^ 3 ≤ vw := by
          calc (MAX_IMAGE_DIMENSION : ℚ) * (1 - eps53) ^ 3
              = (((w : ℚ) * (1 - eps53)) * (p * (1 - eps53))) * (1 - eps53) := by
                rw [← hwp]; ring
            _ ≤ (fl64 (w : ℚ) * ratio) * (1 - eps53) :=
                mul_le_mul_of_nonneg_right hxw_low h1me.le
            _ ≤ vw := hvw1
        have hnum_low : (MAX_IMAGE_DIMENSION : ℚ) - 1 < (MAX_IMAGE_DIMENSION : ℚ) * (1 - eps53) ^ 3 := by
          norm_num [MAX_IMAGE_DIMENSION, eps53]
        have hfl_ge : (MAX_IMAGE_DIMENSION : ℤ) - 1 ≤ ⌊vw⌋ := by
          rw [Int.le_floor]
          push_cast
          linarith
        have hcomp : MAX_IMAGE_DIMENSION - 1 ≤ ⌊vw⌋.toNat := by omega
        exact le_trans hcomp (le_max_left _ _)
      · have hsp : s ≤ p := by
          rw [hpdef, hsdef]
          exact div_le_div_of_nonneg_left hMq.le hwq (by exact_mod_cast hwh)
        have hr_ge : s * (1 - eps53) ≤ ratio :=
          le_min (le_trans (mul_le_mul_of_nonneg_right hsp h1me.le) hfw1) hfh1
        have hxh_low : ((h : ℚ) * (1 - eps53)) * (s * (1 - eps53)) ≤ fl64 (h : ℚ) * ratio :=
          mul_le_mul hah1 hr_ge (by positivity) hahpos.le
        have hvh_low : (MAX_IMAGE_DIMENSION : ℚ) * (1 - eps53) ^ 3 ≤ vh := by
          calc (MAX_IMAGE_DIMENSION : ℚ) * (1 - eps53) ^ 3
              = (((h : ℚ) * (1 - eps53)) * (s * (1 - eps53))) * (1 - eps53) := by
                rw [← hhs]; ring
            _ ≤ (fl64 (h : ℚ) * ratio) * (1 - eps53) :=
                mul_le_mul_of_nonneg_right hxh_low h1me.le
            _ ≤ vh := hvh1
        have hnum_low : (MAX_IMAGE_DIMENSION : ℚ) - 1 < (MAX_IMAGE_DIMENSION : ℚ) * (1 - eps53) ^ 3 := by
          norm_num [MAX_IMAGE_DIMENSION, eps53]
        have hfl_ge : (MAX_IMAGE_DIMENSION : ℤ) - 1 ≤ ⌊vh⌋ := by
          rw [Int.le_floor]
          push_cast
          linarith
        have hcomp : MAX_IMAGE_DIMENSION - 1 ≤ ⌊vh⌋.toNat := by omega
        exact le_trans hcomp (le_max_right _ _)
    · set D : ℚ := eps53 * ((MAX_IMAGE_DIMENSION : ℚ) * (1 + eps53)
        + (MAX_IMAGE_DIMENSION : ℚ) * (1 + eps53) ^ 2) with hDdef
      have hD0 : (0 : ℚ) ≤ D := by rw [hDdef]; positivity
      have hD1 : D < 1 := by rw [hDdef]; norm_num [MAX_IMAGE_DIMENSION, eps53]
      have hdw_up : vw ≤ (w : ℚ) * ratio + D := by
        have s1 : vw ≤ fl64 (w : ℚ) * ratio + (fl64 (w : ℚ) * ratio) * eps53 := by
          calc vw ≤ (fl64 (w : ℚ) * ratio) * (1 + eps53) := hvw2
            _ = fl64 (w : ℚ) * ratio + (fl64 (w : ℚ) * ratio) * eps53 := by ring
        have s2 : fl64 (w : ℚ) * ratio ≤ (w : ℚ) * ratio + ((w : ℚ) * ratio) * eps53 := by
          calc fl64 (w : ℚ) * ratio ≤ ((w : ℚ) * (1 + eps53)) * ratio :=
                mul_le_mul_of_nonneg_right haw2 hrpos.le
            _ = (w : ℚ) * ratio + ((w : ℚ) * ratio) * eps53 := by ring
        have s3 : (fl64 (w : ℚ) * ratio) * eps53
            ≤ ((MAX_IMAGE_DIMENSION : ℚ) * (1 + eps53) ^ 2) * eps53 :=
          mul_le_mul_of_nonneg_right hxw_up heps0.le
        have s4 : ((w : ℚ) * ratio) * eps53
            ≤ ((MAX_IMAGE_DIMENSION : ℚ) * (1 + eps53)) * eps53 :=
          mul_le_mul_of_nonneg_right hwr_up heps0.le
        have hDD : D = ((MAX_IMAGE_DIMENSION : ℚ) * (1 + eps53)) * eps53
            + ((MAX_IMAGE_DIMENSION : ℚ) * (1 + eps53) ^ 2) * eps53 := by
          rw [hDdef]; ring
        linarith
      have hdw_lo : (w : ℚ) * ratio - D ≤ vw := by
        have s1 : fl64 (w : ℚ) * ratio - (fl64 (w : ℚ) * ratio) * eps53 ≤ vw := by
          calc fl64 (w : ℚ) * ratio - (fl64 (w : ℚ) * ratio) * eps53
              = (fl64 (w : ℚ) * ratio) * (1 - eps53) := by ring
            _ ≤ vw := hvw1
        have s2 : (w : ℚ) * ratio - ((w : ℚ) * ratio) * eps53 ≤ fl64 (w : ℚ) * ratio := by
          calc (w : ℚ) * ratio - ((w : ℚ) * ratio) * eps53
              = ((w : ℚ) * (1 - eps53)) * ratio := by ring
            _ ≤ fl64 (w : ℚ) * ratio := mul_le_mul_of_nonneg_right haw1 hrpos.le
        have s3 : (fl64 (w : ℚ) * ratio) * eps53
            ≤ ((MAX_IMAGE_DIMENSION : ℚ) * (1 + eps53) ^ 2) * eps53 :=
          mul_le_mul_of_nonneg_right hxw_up heps0.le
        have s4 : ((w : ℚ) * ratio) * eps53
            ≤ ((MAX_IMAGE_DIMENSION : ℚ) * (1 + eps53)) * eps53 :=
          mul_le_mul_of_nonneg_right hwr_up heps0.le
        have hDD : D = ((MAX_IMAGE_DIMENSION : ℚ) * (1 + eps53)) * eps53
            + ((MAX_IMAGE_DIMENSION : ℚ) * (1 + eps53) ^ 2) * eps53 := by
          rw [hDdef]; ring
        linarith
      have hdh_up : vh ≤ (h : ℚ) * ratio + D := by
        have s1 : vh ≤ fl64 (h : ℚ) * ratio + (fl64 (h : ℚ) * ratio) * eps53 := by
          calc vh ≤ (fl64 (h : ℚ) * ratio) * (1 + eps53) := hvh2
            _ = fl64 (h : ℚ) * ratio + (fl64 (h : ℚ) * ratio) * eps53 := by ring
        have s2 : fl64 (h : ℚ) * ratio ≤ (h : ℚ) * ratio + ((h : ℚ) * ratio) * eps53 := by
          calc fl64 (h : ℚ) * ratio ≤ ((h : ℚ) * (1 + eps53)) * ratio :=
                mul_le_mul_of_nonneg_right hah2 hrpos.le
            _ = (h : ℚ) * ratio + ((h : ℚ) * ratio) * eps53 := by ring
        have s3 : (fl64 (h : ℚ) * ratio) * eps53
            ≤ ((MAX_IMAGE_DIMENSION : ℚ) * (1 + eps53) ^ 2) * eps53 :=
          mul_le_mul_of_nonneg_right hxh_up heps0.le
        have s4 : ((h : ℚ) * ratio) * eps53
            ≤ ((MAX_IMAGE_DIMENSION : ℚ) * (1 + eps53)) * eps53 :=
          mul_le_mul_of_nonneg_right hhr_up heps0.le
        have hDD : D = ((MAX_IMAGE_DIMENSION : ℚ) * (1 + eps53)) * eps53
            + ((MAX_IMAGE_DIMENSION : ℚ) * (1 + eps53) ^ 2) * eps53 := by
          rw [hDdef]; ring
        linarith
      have hdh_lo : (h : ℚ) * ratio - D ≤ vh := by
        have s1 : fl64 (h : ℚ) * ratio - (fl64 (h : ℚ) * ratio) * eps53 ≤ vh := by
          calc fl64 (h : ℚ) * ratio - (fl64 (h : ℚ) * ratio) * eps53
              = (fl64 (h : ℚ) * ratio) * (1 - eps53) := by ring
            _ ≤ vh := hvh1
        have s2 : (h : ℚ) * ratio - ((h : ℚ) * ratio) * eps53 ≤ fl64 (h : ℚ) * ratio := by
          calc (h : ℚ) * ratio - ((h : ℚ) * ratio) * eps53
              = ((h : ℚ) * (1 - eps53)) * ratio := by ring
            _ ≤ fl64 (h : ℚ) * ratio := mul_le_mul_of_nonneg_right hah1 hrpos.le
        have s3 : (fl64 (h : ℚ) * ratio) * eps53
            ≤ ((MAX_IMAGE_DIMENSION : ℚ) * (1 + eps53) ^ 2) * eps53 :=
          mul_le_mul_of_nonneg_right hxh_up heps0.le
        have s4 : ((h : ℚ) * ratio) * eps53
            ≤ ((MAX_IMAGE_DIMENSION : ℚ) * (1 + eps53)) * eps53 :=
          mul_le_mul_of_nonneg_right hhr_up heps0.le
        have hDD : D = ((MAX_IMAGE_DIMENSION : ℚ) * (1 + eps53)) * eps53
            + ((MAX_IMAGE_DIMENSION : ℚ) * (1 + eps53) ^ 2) * eps53 := by
          rw [hDdef]; ring
        linarith
      have hnwq : ((⌊vw⌋.toNat : ℕ) : ℚ) = ((⌊vw⌋ : ℤ) : ℚ) := by
        exact_mod_cast Int.toNat_of_nonneg hfvw0
      have hnhq : ((⌊vh⌋.toNat : ℕ) : ℚ) = ((⌊vh⌋ : ℤ) : ℚ) := by
        exact_mod_cast Int.toNat_of_nonneg hfvh0
      have hflw_le : ((⌊vw⌋ : ℤ) : ℚ) ≤ vw := Int.floor_le vw
      have hflw_gt : vw - 1 < ((⌊vw⌋ : ℤ) : ℚ) := Int.sub_one_lt_floor vw
      have hflh_le : ((⌊vh⌋ : ℤ) : ℚ) ≤ vh := Int.floor_le vh
      have hflh_gt : vh - 1 < ((⌊vh⌋ : ℤ) : ℚ) := Int.sub_one_lt_floor vh
      have hflw_lo : (w : ℚ) * ratio - D - 1 < ((⌊vw⌋ : ℤ) : ℚ) := by linarith
      have hflw_up : ((⌊vw⌋ : ℤ) : ℚ) ≤ (w : ℚ) * ratio + D := by linarith
      have hflh_lo : (h : ℚ) * ratio - D - 1 < ((⌊vh⌋ : ℤ) : ℚ) := by linarith
      have hflh_up : ((⌊vh⌋ : ℤ) : ℚ) ≤ (h : ℚ) * ratio + D := by linarith
      have m1 : ((w : ℚ) * ratio - D - 1) * h < ((⌊vw⌋ : ℤ) : ℚ) * h :=
        mul_lt_mul_of_pos_right hflw_lo hhq
      have m2 : ((⌊vh⌋ : ℤ) : ℚ) * w ≤ ((h : ℚ) * ratio + D) * w :=
        mul_le_mul_of_nonneg_right hflh_up hwq.le
      have m3 : ((⌊vw⌋ : ℤ) : ℚ) * h ≤ ((w : ℚ) * ratio + D) * h :=
        mul_le_mul_of_nonneg_right hflw_up hhq.le
      have m4 : ((h : ℚ) * ratio - D - 1) * w < ((⌊vh⌋ : ℤ) : ℚ) * w :=
        mul_lt_mul_of_pos_right hflh_lo hwq
      have hDh : D * (h : ℚ) ≤ (h : ℚ) := by
        calc D * (h : ℚ) ≤ 1 * (h : ℚ) := mul_le_mul_of_nonneg_right hD1.le hhq.le
          _ = (h : ℚ) := one_mul _
      have hDw : D * (w : ℚ) ≤ (w : ℚ) := by
        calc D * (w : ℚ) ≤ 1 * (w : ℚ) := mul_le_mul_of_nonneg_right hD1.le hwq.le
          _ = (w : ℚ) := one_mul _
      have hcross : |((⌊vw⌋.toNat : ℕ) : ℚ) * h - w * ((⌊vh⌋.toNat : ℕ) : ℚ)|
          < 2 * ((w : ℚ) + h) := by
        rw [hnwq, hnhq, abs_lt]
        constructor
        · linarith [m1, m2, hDh, hDw, hwq, hhq]
        · linarith [m3, m4, hDh, hDw, hwq, hhq]
      obtain ⟨hcl, hcu⟩ := abs_lt.mp hcross
      have hzl : -(2 * ((w : ℤ) + h)) < (⌊vw⌋.toNat : ℤ) * h - (w : ℤ) * (⌊vh⌋.toNat : ℤ) := by
        exact_mod_cast hcl
      have hzu : (⌊vw⌋.toNat : ℤ) * h - (w : ℤ) * (⌊vh⌋.toNat : ℤ) < 2 * ((w : ℤ) + h) := by
        exact_mod_cast hcu
      omega

/-- C7 witness: at the counterexample input 2105 by 1000 (oversized), the
amended bounds hold and are tight — the larger side is allowed to be one
pixel under the maximum, and is. -/
theorem c7_resize_dims_float_bounds_witness :
    (resize_dims 2105 1000).1 ≤ MAX_IMAGE_DIMENSION ∧
    (resize_dims 2105 1000).2 ≤ MAX_IMAGE_DIMENSION ∧
    MAX_IMAGE_DIMENSION - 1 ≤ max (resize_dims 2105 1000).1 (resize_dims 2105 1000).2 := by
  have h := (c7_resize_dims_float_bounds 2105 1000 (by norm_num) (by norm_num)).2
    (Or.inl (by norm_num [MAX_IMAGE_DIMENSION])) (by norm_num) (by norm_num)
  exact ⟨h.1, h.2.1, h.2.2.1⟩



/-- C10: for every decoder, encoder and decodable input, the normalizer's
output is the encoder's output at some quality at most 95 applied to the
flattened, dimension-bounded image — including when the input is already
within both the byte budget and the dimension bound, or already encoded;
there is no path returning the input bytes unchanged. -/
theorem c10_always_reencodes (decode : List Nat → Option Img)
    (encode : Img → Nat → List Nat) (image_bytes : List Nat) (img : Img)
    (hdec : decode image_bytes = some img) :
    ∃ q ≤ 95,
      resize_image decode encode image_bytes =
        some (encode
          { width := (resize_dims img.width img.height).1,
            height := (resize_dims img.width img.height).2,
            hasAlpha := false } q) := by
  obtain ⟨iw, ihh, ia⟩ := img
  refine ⟨(encodeLoop (fun qq => (encode
      { width := (resize_dims iw ihh).1, height := (resize_dims iw ihh).2,
        hasAlpha := false } qq).length) 95).1,
    encodeLoop_fst_le _ 95, ?_⟩
  cases ia
  · rw [resize_image, hdec]
    rfl
  · rw [resize_image, hdec]
    rfl

/-- C10 witness: a decodable 100 by 100 image, already under every bound, is
still re-encoded at a quality at most 95 rather than returned as-is. -/
theorem c10_always_reencodes_witness :
    ∃ q ≤ 95,
      resize_image (fun _ => some { width := 100, height := 100, hasAlpha := false })
          (fun i qq => [i.width, i.height, qq]) [1, 2, 3] =
        some [(resize_dims 100 100).1, (resize_dims 100 100).2, q] :=
  c10_always_reencodes (fun _ => some { width := 100, height := 100, hasAlpha := false })
    (fun i qq => [i.width, i.height, qq]) [1, 2, 3]
    { width := 100, height := 100, hasAlpha := false } rfl

end BskyMusic
